import Mathlib

/-!
Shallow embedding of `src/services/video.services.ts` (two revisions of the
file are present in the repository; they agree on every function except
`getVideos`, which is embedded twice below as `getVideos_v1` / `getVideos_v2`).

JavaScript strings are modelled as `List Char` (`JStr`).  The only string
operations the source uses are `split` on a one-character separator, `join`,
`pop` (last element), `slice`, and concatenation; they are embedded below as
`splitOnChar`, `joinChar`, `List.getLastD`, `List.dropLast`/`List.drop`, and
`++`.  `Date.now()` is modelled as an explicit `now : Nat` parameter rendered
in decimal by `natToChars` (JavaScript's number-to-string coercion).
Filesystem and record-store effects are modelled by explicit state passing;
fallible renames are driven by a `renameOk` oracle saying which moves succeed.
-/

set_option autoImplicit false

namespace VideoServices

abbrev JStr := List Char

/-- Coerce a Lean string literal to the `List Char` model of a JS string. -/
def js (s : String) : JStr := s.data

/-- JavaScript `s.split(c)` for a one-character separator `c`.
Always returns a non-empty list of chunks. -/
def splitOnChar (c : Char) : JStr → List JStr
  | [] => [[]]
  | x :: xs =>
    match splitOnChar c xs with
    | [] => [[]]
    | h :: t => if x = c then [] :: h :: t else (x :: h) :: t

/-- JavaScript `parts.join(c)` for a one-character separator `c`. -/
def joinChar (c : Char) : List JStr → JStr
  | [] => []
  | [x] => x
  | x :: y :: xs => x ++ c :: joinChar c (y :: xs)

/-- Decimal digits of `n`, most significant first (fuel-driven so that it
reduces definitionally; the fuel `n+1` always suffices). -/
def natToCharsCore : Nat → Nat → List Char → List Char
  | 0, _, acc => acc
  | fuel + 1, n, acc =>
    if n < 10 then Char.ofNat (48 + n % 10) :: acc
    else natToCharsCore fuel (n / 10) (Char.ofNat (48 + n % 10) :: acc)

/-- JavaScript coercion of the number `n` (e.g. `Date.now()`) to a string. -/
def natToChars (n : Nat) : JStr := natToCharsCore (n + 1) n []

/-! ### Data model

`Video` record (sequelize model): `id`, `user`, `source`, optional
`duration`, and the resolution → derived-path map `format`.  A key can be
present with an `undefined`/empty value, which the source guards with a JS
truthiness test `if (oldPath)`; `format` is therefore a list of
`(resolution, Option path)` entries with pairwise-distinct keys. -/

structure VideoRec where
  id : JStr
  source : JStr
  user : Int
  duration : Option Int
  format : List (Nat × Option JStr)
  deriving DecidableEq

/-- Model of `req.body` — only the declared display name is consulted. -/
structure ReqBody where
  name : JStr
  deriving DecidableEq

/-- An uploaded file; only its original client-side name is consulted. -/
structure UploadedFile where
  name : JStr
  deriving DecidableEq

/-- Model of `req.files` — the `source` field of the multipart upload. -/
structure ReqFiles where
  source : UploadedFile
  deriving DecidableEq

/-- The parts of an express `Request` that `generateVideoPath` reads. -/
structure Req where
  body : ReqBody
  files : ReqFiles
  deriving DecidableEq

/-! ### Path namespace functions (identical in both revisions) -/

/-- Source `generateVideoPath(videoFolder, req)`:
`${videoFolder}/${Date.now()}_${req.body.name}.${file.name.split(".").pop()}`. -/
def generateVideoPath (now : Nat) (videoFolder : JStr) (req : Req) : JStr :=
  videoFolder ++ '/' :: (natToChars now ++ '_' :: (req.body.name ++
    '.' :: (splitOnChar '.' req.files.source.name).getLastD []))

/-- Source `getVideoName(video)`:
`video.source.split("/").pop()?.split("_").slice(1).join("_")`
(the `pop` is always defined, so the optional chain always proceeds). -/
def getVideoName (video : VideoRec) : JStr :=
  joinChar '_' ((splitOnChar '_' ((splitOnChar '/' video.source).getLastD [])).drop 1)

/-- Source `generateEncodedVideoFolderPath(video, resolution)`:
`` `${video.source.split("/").slice(0,-1).join("/")}/${video.id}/${resolution}p/` ``. -/
def generateEncodedVideoFolderPath (video : VideoRec) (resolution : Nat) : JStr :=
  joinChar '/' ((splitOnChar '/' video.source).dropLast) ++
    '/' :: (video.id ++ '/' :: (natToChars resolution ++ js "p/"))

/-- Source `updateVideoPath(oldPath, newName)`:
`oldPath.split("/").slice(0,-1).join("/") + "/" + Date.now() + "_" +
 newName.split(".").slice(-1) + "." + oldPath.split(".").pop()`
(the one-element array `slice(-1)` is string-coerced to its single element). -/
def updateVideoPath (now : Nat) (oldPath newName : JStr) : JStr :=
  joinChar '/' ((splitOnChar '/' oldPath).dropLast) ++
    '/' :: (natToChars now ++ '_' :: ((splitOnChar '.' newName).getLastD [] ++
      '.' :: (splitOnChar '.' oldPath).getLastD []))

/-! ### `getVideos` — the query builder, in both revisions

A sequelize call is modelled by the `where` filter it builds together with
the `limit`/`offset` it issues.  JS truthiness on a string is `≠ ""`, on a
number `≠ 0`. -/

/-- The `where` filter built by `getVideos` (identical in both revisions). -/
structure VideoQueryFilter where
  sourceILike : Option JStr
  userEq : Option Int
  durationGt : Option Int
  deriving DecidableEq

/-- The find-and-count query a `getVideos` revision issues. -/
structure FindQuery where
  filter : VideoQueryFilter
  limit : Int
  offset : Int
  deriving DecidableEq

/-- The shared filter builder of both `getVideos` revisions. -/
def buildVideoFilter (name : JStr) (user : Int) (duration : Int) : VideoQueryFilter :=
  { sourceILike := if name ≠ [] then some ('%' :: name ++ ['%']) else none
    userEq := if user ≠ 0 then some user else none
    durationGt := if duration ≠ 0 then some duration else none }

/-- First revision: `limit: perPage, offset: perPage * (page - 1)`. -/
def getVideos_v1 (name : JStr) (user duration page perPage : Int) : FindQuery :=
  { filter := buildVideoFilter name user duration
    limit := perPage
    offset := perPage * (page - 1) }

/-- Second revision: `limit: perPage || 5, offset: perPage || 5 * (page - 1)`;
by JS precedence the offset is `perPage` whenever `perPage` is truthy and
`5 * (page - 1)` otherwise. -/
def getVideos_v2 (name : JStr) (user duration page perPage : Int) : FindQuery :=
  { filter := buildVideoFilter name user duration
    limit := if perPage ≠ 0 then perPage else 5
    offset := if perPage ≠ 0 then perPage else 5 * (page - 1) }

/-! ### `updateVideoName` — the asset relocation synchronizer

State machine over an explicit outcome record.  `renameOk old new` says
whether the `fsAsync.rename(old, new)` call succeeds; a `false` models the
promise rejecting, which aborts the whole `async` function. -/

/-- JS `video.format[res]` (undefined both for a missing key and for a key
whose stored value is undefined). -/
def lookupFormat : List (Nat × Option JStr) → Nat → Option JStr
  | [], _ => none
  | e :: rest, res => if e.1 = res then e.2 else lookupFormat rest res

/-- JS `video.format[res] = p` (every entry carrying the key is updated). -/
def setFormat : List (Nat × Option JStr) → Nat → JStr → List (Nat × Option JStr)
  | [], _, _ => []
  | e :: rest, res, p => (if e.1 = res then (e.1, some p) else e) :: setFormat rest res p

/-- Result of a call to `updateVideoName`: the in-memory `video` object when
the function returns or throws, the renames that succeeded (in order), the
record contents persisted by `video.save()` (none when the function threw
first), and the rename whose rejection aborted the call, if any. -/
structure RenameOutcome where
  video : VideoRec
  moved : List (JStr × JStr)
  persisted : Option VideoRec
  failed : Option (JStr × JStr)
  deriving DecidableEq

/-- The `for (const format of Object.keys(video.format))` loop body of
`updateVideoName`: reads the current value, and for a truthy value first
reassigns `video.format[format] = newPath` and then awaits the rename,
aborting the whole function if that rename rejects. -/
def updateVideoNameLoop (now : Nat) (renameOk : JStr → JStr → Bool) (newName : JStr) :
    List Nat → VideoRec → List (JStr × JStr) →
    VideoRec × List (JStr × JStr) × Option (JStr × JStr)
  | [], vid, moved => (vid, moved, none)
  | res :: rest, vid, moved =>
    match lookupFormat vid.format res with
    | some p =>
      if p = [] then updateVideoNameLoop now renameOk newName rest vid moved
      else
        if renameOk p (updateVideoPath now p newName) then
          updateVideoNameLoop now renameOk newName rest
            { vid with format := setFormat vid.format res (updateVideoPath now p newName) }
            (moved ++ [(p, updateVideoPath now p newName)])
        else
          ({ vid with format := setFormat vid.format res (updateVideoPath now p newName) },
            moved, some (p, updateVideoPath now p newName))
    | none => updateVideoNameLoop now renameOk newName rest vid moved

/-- Source `updateVideoName(video, newName)`: computes the new primary path,
reassigns `video.source`, awaits the primary rename (aborting on rejection),
runs the per-resolution loop, and finally persists with a single
`video.save()`. -/
def updateVideoName (now : Nat) (renameOk : JStr → JStr → Bool)
    (video : VideoRec) (newName : JStr) : RenameOutcome :=
  if renameOk video.source (updateVideoPath now video.source newName) then
    match updateVideoNameLoop now renameOk newName (video.format.map Prod.fst)
        { video with source := updateVideoPath now video.source newName } [] with
    | (vid2, moved, none) =>
      { video := vid2
        moved := (video.source, updateVideoPath now video.source newName) :: moved
        persisted := some vid2
        failed := none }
    | (vid2, moved, some f) =>
      { video := vid2
        moved := (video.source, updateVideoPath now video.source newName) :: moved
        persisted := none
        failed := some f }
  else
    { video := { video with source := updateVideoPath now video.source newName }
      moved := []
      persisted := none
      failed := some (video.source, updateVideoPath now video.source newName) }

/-! ### `encodeVideo` — the transcoding orchestrator

The fluent-ffmpeg engine run is modelled by the stream of progress events it
emits plus its single terminal signal (`end` or `error err`).  `encodeVideo`
builds a command (input, output, `size("?x<resolution>")`) and settles its
promise from the terminal signal alone. -/

/-- The TS resolution union type `1080 | 720 | 480 | 360 | 240 | 144`. -/
inductive Resolution where
  | r1080 | r720 | r480 | r360 | r240 | r144
  deriving DecidableEq

def Resolution.toNat : Resolution → Nat
  | .r1080 => 1080
  | .r720 => 720
  | .r480 => 480
  | .r360 => 360
  | .r240 => 240
  | .r144 => 144

/-- Terminal signal of one engine run: `end` or `error` with a diagnostic. -/
inductive EngineTerminal where
  | normalEnd
  | errorEnd (msg : JStr)
  deriving DecidableEq

/-- One run of the external engine: telemetry plus the terminal signal. -/
structure EngineRun where
  progressEvents : List Int
  terminal : EngineTerminal
  deriving DecidableEq

/-- The command `encodeVideo` hands to the engine. -/
structure FfmpegCommand where
  input : JStr
  outputTarget : JStr
  sizeSpec : JStr
  deriving DecidableEq

/-- Source `encodeVideo(videoPath, outputPath, resolution)` applied to one engine
run: the built command together with the settled promise (`ok` on the `end`
event, `error err` on the `error` event; `progress` events only log). -/
def encodeVideo (videoPath outputPath : JStr) (resolution : Resolution)
    (run : EngineRun) : FfmpegCommand × Except JStr Unit :=
  (⟨videoPath, outputPath, js "?x" ++ natToChars resolution.toNat⟩,
    match run.terminal with
    | .normalEnd => .ok ()
    | .errorEnd e => .error e)

/-! ### `deleteVideo` — asset reclamation

World = filesystem (set of file paths, set of directory-tree roots) plus the
record store (set of record ids).  `fs.rm`/`fs.rmdir` report an error to
their callback, where it is only logged; `video.destroy().then()` discards
any rejection without logging it.  `destroyOk` models whether the record
store succeeds. -/

structure World where
  files : List JStr
  dirs : List JStr
  records : List JStr
  deriving DecidableEq

/-- Which removal failures `deleteVideo` passed to `logger.error`. -/
structure DeleteLog where
  rmLogged : Bool
  rmdirLogged : Bool
  destroyLogged : Bool
  deriving DecidableEq

/-- The derived-asset directory removed by `deleteVideo`:
`video.source.split("/").slice(0,-1).join("/") + "/" + video.id`. -/
def derivedDir (video : VideoRec) : JStr :=
  joinChar '/' ((splitOnChar '/' video.source).dropLast) ++ '/' :: video.id

/-- Source `deleteVideo(video)`: removes the primary file, recursively removes the
derived directory, and destroys the record; the three steps run
unconditionally and independently, filesystem errors are logged, and a
`destroy` rejection is silently discarded. -/
def deleteVideo (destroyOk : Bool) (video : VideoRec) (w : World) : World × DeleteLog :=
  ({ files := w.files.filter (fun f => f ≠ video.source)
     dirs := w.dirs.filter (fun d => d ≠ derivedDir video)
     records := if destroyOk then w.records.filter (fun r => r ≠ video.id) else w.records },
   { rmLogged := decide (video.source ∉ w.files)
     rmdirLogged := decide (derivedDir video ∉ w.dirs)
     destroyLogged := false })

/-! ## String-model lemmas -/

/-- Note `splitOnChar` never returns the empty list of chunks. -/
theorem splitOnChar_ne_nil (c : Char) (s : JStr) : splitOnChar c s ≠ [] := by
  induction s with
  | nil => simp [splitOnChar]
  | cons x xs ih =>
    rcases h : splitOnChar c xs with _ | ⟨hd, tl⟩
    · exact absurd h ih
    · simp only [splitOnChar, h]
      split <;> simp

/-- Splitting a string that does not contain the separator. -/
theorem splitOnChar_of_not_mem {c : Char} {s : JStr} (h : c ∉ s) : splitOnChar c s = [s] := by
  induction s with
  | nil => rfl
  | cons x xs ih =>
    simp only [List.mem_cons, not_or] at h
    simp only [splitOnChar, ih h.2]
    rw [if_neg (fun heq => h.1 heq.symm)]

/-- Splitting across an explicit separator occurrence. -/
theorem splitOnChar_append_cons (c : Char) (a b : JStr) :
    splitOnChar c (a ++ c :: b) = splitOnChar c a ++ splitOnChar c b := by
  induction a with
  | nil =>
    rcases h : splitOnChar c b with _ | ⟨hd, tl⟩
    · exact absurd h (splitOnChar_ne_nil c b)
    · simp [splitOnChar, h]
  | cons x a' ih =>
    rcases h1 : splitOnChar c a' with _ | ⟨hd, tl⟩
    · exact absurd h1 (splitOnChar_ne_nil c a')
    · by_cases hx : x = c <;>
        simp [splitOnChar, ih, h1, hx, List.cons_append]

/-- Joining undoes splitting. -/
theorem joinChar_splitOnChar (c : Char) (s : JStr) : joinChar c (splitOnChar c s) = s := by
  induction s with
  | nil => rfl
  | cons x xs ih =>
    rcases h : splitOnChar c xs with _ | ⟨hd, tl⟩
    · exact absurd h (splitOnChar_ne_nil c xs)
    · rw [h] at ih
      by_cases hx : x = c
      · simp [splitOnChar, h, hx, joinChar, ih]
      · simp only [splitOnChar, h, if_neg hx]
        cases tl with
        | nil => simp [joinChar] at ih ⊢; simp [ih]
        | cons t1 ts =>
          simp [joinChar] at ih ⊢
          simp [ih]

theorem getLastD_concat {α : Type} (l : List α) (a d : α) : (l ++ [a]).getLastD d = a := by
  induction l generalizing d with
  | nil => rfl
  | cons x xs ih => rw [List.cons_append, List.getLastD_cons]; exact ih x

/-- The last chunk of a split lies after the last separator occurrence. -/
theorem lastChunk_append {c : Char} (a : JStr) {e : JStr} (h : c ∉ e) :
    (splitOnChar c (a ++ c :: e)).getLastD [] = e := by
  rw [splitOnChar_append_cons, splitOnChar_of_not_mem h]
  exact getLastD_concat _ _ _

/-- Directory part of `dir ++ "/" ++ file` as the source computes it
(`split("/")`, drop the last chunk, re-`join("/")`). -/
theorem sourceDir_eq {dir file : JStr} (h : '/' ∉ file) :
    joinChar '/' ((splitOnChar '/' (dir ++ '/' :: file)).dropLast) = dir := by
  rw [splitOnChar_append_cons, splitOnChar_of_not_mem h]
  simp [joinChar_splitOnChar]

/-- Every character `natToCharsCore` pushes is a decimal digit. -/
theorem natToCharsCore_digits (P : Char → Prop)
    (hP : ∀ k : Nat, k < 10 → P (Char.ofNat (48 + k))) :
    ∀ (fuel n : Nat) (acc : List Char), (∀ c ∈ acc, P c) →
      ∀ c ∈ natToCharsCore fuel n acc, P c := by
  intro fuel
  induction fuel with
  | zero => intro n acc hacc c hc; exact hacc c hc
  | succ fuel ih =>
    intro n acc hacc c hc
    simp only [natToCharsCore] at hc
    have hd : ∀ c' ∈ (Char.ofNat (48 + n % 10) :: acc), P c' := by
      intro c' hc'
      rcases List.mem_cons.mp hc' with hc' | hc'
      · exact hc' ▸ hP _ (Nat.mod_lt _ (by decide))
      · exact hacc c' hc'
    split at hc
    · exact hd c hc
    · exact ih _ _ hd c hc

/-- The decimal rendering of a number consists of digit characters only. -/
theorem natToChars_digits (n : Nat) : ∀ c ∈ natToChars n, 48 ≤ c.toNat ∧ c.toNat ≤ 57 := by
  refine natToCharsCore_digits _ ?_ (n + 1) n [] (by intro c hc; cases hc)
  intro k hk
  interval_cases k <;> exact ⟨by decide, by decide⟩

theorem slash_not_mem_natToChars (n : Nat) : '/' ∉ natToChars n := by
  intro h
  have h2 := natToChars_digits n '/' h
  have h3 : '/'.toNat = 47 := by decide
  omega

theorem underscore_not_mem_natToChars (n : Nat) : '_' ∉ natToChars n := by
  intro h
  have h2 := natToChars_digits n '_' h
  have h3 : '_'.toNat = 95 := by decide
  omega

/-! ## C1 — `updateVideoPath` -/

/-- C1 (amended): `updateVideoPath` keeps the old path's directory and the
chunk after the old path's last `'.'` (its extension, whenever the extension
itself contains no `'.'` or `'/'`), and builds the new base name from a fresh
timestamp followed by the last `'.'`-separated chunk of `newName` — the whole
`newName` when it has no dot, the part after the last dot otherwise (not the
last *path* segment, as the original claim stated).  It is a pure string
transform by construction. -/
theorem updateVideoPath_spec (now : Nat) (dir fileStem ext newName : JStr)
    (hfs : '/' ∉ fileStem) (he1 : '/' ∉ ext) (he2 : '.' ∉ ext) :
    updateVideoPath now (dir ++ '/' :: (fileStem ++ '.' :: ext)) newName
      = dir ++ '/' :: (natToChars now ++ '_' ::
          ((splitOnChar '.' newName).getLastD [] ++ '.' :: ext))
    ∧ ('.' ∉ newName → (splitOnChar '.' newName).getLastD [] = newName)
    ∧ (∀ a b : JStr, '.' ∉ b → (splitOnChar '.' (a ++ '.' :: b)).getLastD [] = b) := by
  refine ⟨?_, ?_, ?_⟩
  · unfold updateVideoPath
    have hfile : '/' ∉ fileStem ++ '.' :: ext := by
      simp [List.mem_append, List.mem_cons, hfs, he1]
    rw [sourceDir_eq hfile]
    have hassoc : dir ++ '/' :: (fileStem ++ '.' :: ext)
        = (dir ++ '/' :: fileStem) ++ '.' :: ext := by simp
    rw [hassoc, lastChunk_append _ he2]
  · intro h; rw [splitOnChar_of_not_mem h]; rfl
  · intro a b hb; exact lastChunk_append a hb

/-- Witness for C1's amended theorem at `oldPath = "/data/a.mp4"`,
`newName = "b"`, timestamp `5`. -/
theorem updateVideoPath_spec_witness :
    ('/' ∉ js "a") ∧ ('/' ∉ js "mp4") ∧ ('.' ∉ js "mp4") ∧
    updateVideoPath 5 (js "/data" ++ '/' :: (js "a" ++ '.' :: js "mp4")) (js "b")
      = js "/data" ++ '/' :: (natToChars 5 ++ '_' ::
          ((splitOnChar '.' (js "b")).getLastD [] ++ '.' :: js "mp4")) :=
  ⟨by decide, by decide, by decide,
    (updateVideoPath_spec 5 (js "/data") (js "a") (js "mp4") (js "b")
      (by decide) (by decide) (by decide)).1⟩

/-- C1 counterexample: with `newBaseName = "x.y"` the last path segment is
`"x.y"` itself, so the claim predicts `"/data/5_x.y.mp4"`; the code splits on
`'.'` and produces `"/data/5_y.mp4"`. -/
theorem updateVideoPath_counterexample :
    (splitOnChar '/' (js "x.y")).getLastD [] = js "x.y"
    ∧ updateVideoPath 5 (js "/data/a.mp4") (js "x.y") = js "/data/5_y.mp4"
    ∧ updateVideoPath 5 (js "/data/a.mp4") (js "x.y")
        ≠ js "/data/" ++ natToChars 5 ++ js "_x.y.mp4" := by decide

/-! ## C5, C6 — `generateVideoPath` -/

/-- C5 (amended): when the uploaded file's name contains no `'.'`, the chunk
`file.name.split(".").pop()` is the *whole* file name — not the empty string —
so the generated path ends in `'.'` followed by the whole uploaded name, and
it ends in `'.'` exactly when the uploaded name is empty. -/
theorem generateVideoPath_no_dot (now : Nat) (videoFolder name fileName : JStr)
    (h : '.' ∉ fileName) :
    generateVideoPath now videoFolder ⟨⟨name⟩, ⟨⟨fileName⟩⟩⟩
      = ((videoFolder ++ '/' :: (natToChars now ++ '_' :: name)) ++ ['.']) ++ fileName
    ∧ (fileName = [] →
        generateVideoPath now videoFolder ⟨⟨name⟩, ⟨⟨fileName⟩⟩⟩
          = (videoFolder ++ '/' :: (natToChars now ++ '_' :: name)) ++ ['.']) := by
  constructor
  · unfold generateVideoPath
    rw [splitOnChar_of_not_mem h]
    simp
  · intro hnil
    subst hnil
    unfold generateVideoPath
    simp [splitOnChar]

/-- Witness for C5's amended theorem at `fileName = "video"`. -/
theorem generateVideoPath_no_dot_witness :
    ('.' ∉ js "video") ∧
    generateVideoPath 1 (js "/data") ⟨⟨js "clip"⟩, ⟨⟨js "video"⟩⟩⟩
      = ((js "/data" ++ '/' :: (natToChars 1 ++ '_' :: js "clip")) ++ ['.']) ++ js "video" :=
  ⟨by decide, (generateVideoPath_no_dot 1 (js "/data") (js "clip") (js "video") (by decide)).1⟩

/-- C5 counterexample: uploading `"video"` (no dot) under declared name
`"clip"` extracts the non-empty extension chunk `"video"` and produces
`"/data/1_clip.video"`, which does not end in `'.'`. -/
theorem generateVideoPath_no_dot_counterexample :
    ('.' ∉ js "video")
    ∧ (splitOnChar '.' (js "video")).getLastD [] ≠ []
    ∧ generateVideoPath 1 (js "/data") ⟨⟨js "clip"⟩, ⟨⟨js "video"⟩⟩⟩ = js "/data/1_clip.video"
    ∧ (generateVideoPath 1 (js "/data") ⟨⟨js "clip"⟩, ⟨⟨js "video"⟩⟩⟩).getLast? ≠ some '.' := by
  decide

/-- C6: for an uploaded file name with an extension (`stem ++ "." ++ fext`,
`fext` dot-free), the generated path lies under `videoFolder`, its base name
is the fresh timestamp followed by the whole declared name, and its extension
is `fext` — taken from the uploaded file's own name; the declared name enters
the path verbatim, so any extension it carries is never used as the path's
extension. -/
theorem generateVideoPath_spec (now : Nat) (videoFolder name stem fext : JStr)
    (h : '.' ∉ fext) :
    generateVideoPath now videoFolder ⟨⟨name⟩, ⟨⟨stem ++ '.' :: fext⟩⟩⟩
      = videoFolder ++ '/' :: (natToChars now ++ '_' :: (name ++ '.' :: fext)) := by
  unfold generateVideoPath
  rw [lastChunk_append _ h]

/-- Witness for C6 with declared name `"show.flv"` and uploaded file
`"real.mp4"`: the path's extension is `mp4`, not `flv`. -/
theorem generateVideoPath_spec_witness :
    ('.' ∉ js "mp4") ∧
    generateVideoPath 2 (js "/v") ⟨⟨js "show.flv"⟩, ⟨⟨js "real" ++ '.' :: js "mp4"⟩⟩⟩
      = js "/v" ++ '/' :: (natToChars 2 ++ '_' :: (js "show.flv" ++ '.' :: js "mp4")) :=
  ⟨by decide, generateVideoPath_spec 2 (js "/v") (js "show.flv") (js "real") (js "mp4") (by decide)⟩

/-! ## C10 — round trip `generateVideoPath` / `getVideoName` -/

/-- C10: a video whose `source` was produced by `generateVideoPath` (base name
`<timestamp>_<name>.<ext>` with `ext` the uploaded file's last dot chunk)
yields `getVideoName = name ++ "." ++ ext`, provided neither `name` nor that
chunk contains a path separator; underscores inside `name` survive because the
`split("_")` chunks after the first are re-joined with `"_"`. -/
theorem getVideoName_roundtrip (now : Nat) (folder name fileName : JStr)
    (hn : '/' ∉ name)
    (he : '/' ∉ (splitOnChar '.' fileName).getLastD [])
    (id : JStr) (user : Int) (dur : Option Int) (fmt : List (Nat × Option JStr)) :
    getVideoName ⟨id, generateVideoPath now folder ⟨⟨name⟩, ⟨⟨fileName⟩⟩⟩, user, dur, fmt⟩
      = name ++ '.' :: (splitOnChar '.' fileName).getLastD [] := by
  unfold getVideoName generateVideoPath
  have hrest : '/' ∉ natToChars now ++ '_' ::
      (name ++ '.' :: (splitOnChar '.' fileName).getLastD []) := by
    intro hmem
    rcases List.mem_append.mp hmem with hmem | hmem
    · exact slash_not_mem_natToChars now hmem
    · rcases List.mem_cons.mp hmem with hmem | hmem
      · exact absurd hmem (by decide)
      · rcases List.mem_append.mp hmem with hmem | hmem
        · exact hn hmem
        · rcases List.mem_cons.mp hmem with hmem | hmem
          · exact absurd hmem (by decide)
          · exact he hmem
  rw [show (⟨id,
      folder ++ '/' :: (natToChars now ++ '_' ::
        (name ++ '.' :: (splitOnChar '.' fileName).getLastD [])),
      user, dur, fmt⟩ : VideoRec).source
    = folder ++ '/' :: (natToChars now ++ '_' ::
        (name ++ '.' :: (splitOnChar '.' fileName).getLastD [])) from rfl]
  rw [splitOnChar_append_cons, splitOnChar_of_not_mem hrest, getLastD_concat,
    splitOnChar_append_cons, splitOnChar_of_not_mem (underscore_not_mem_natToChars now)]
  simp [joinChar_splitOnChar]

/-- Witness for C10 with declared name `"my_clip"` (which contains an
underscore) and uploaded file `"raw.mp4"`. -/
theorem getVideoName_roundtrip_witness :
    ('/' ∉ js "my_clip") ∧ ('/' ∉ (splitOnChar '.' (js "raw.mp4")).getLastD []) ∧
    getVideoName ⟨js "i",
        generateVideoPath 3 (js "/data") ⟨⟨js "my_clip"⟩, ⟨⟨js "raw.mp4"⟩⟩⟩, 1, none, []⟩
      = js "my_clip" ++ '.' :: (splitOnChar '.' (js "raw.mp4")).getLastD [] :=
  ⟨by decide, by decide,
    getVideoName_roundtrip 3 (js "/data") (js "my_clip") (js "raw.mp4")
      (by decide) (by decide) (js "i") 1 none []⟩

/-! ## C4 — the two `getVideos` revisions -/

/-- C4 (code bug): the revisions build the same filter, but at
`page = 3, perPage = 10` the first issues `offset = perPage * (page - 1) = 20`
while the second issues `offset = 10`, because
`perPage || 5 * (page - 1)` parses as `perPage || (5 * (page - 1))` and any
truthy `perPage` short-circuits to itself; the queries therefore differ. -/
theorem getVideos_divergence :
    (getVideos_v1 (js "") 0 0 3 10).offset = 20
    ∧ (getVideos_v2 (js "") 0 0 3 10).offset = 10
    ∧ (getVideos_v2 (js "") 0 0 3 10).limit = (getVideos_v1 (js "") 0 0 3 10).limit
    ∧ (getVideos_v2 (js "") 0 0 3 10).filter = (getVideos_v1 (js "") 0 0 3 10).filter
    ∧ getVideos_v2 (js "") 0 0 3 10 ≠ getVideos_v1 (js "") 0 0 3 10 := by decide

/-! ## C7 — `generateEncodedVideoFolderPath` -/

/-- C7: for a `source` of the form `dir ++ "/" ++ file`, the derived folder
is exactly `<dir>/<id>/<resolution>p/`; two distinct resolutions from the
fixed set give different folders, and both are extensions of the video's own
directory `<dir>/<id>/`. -/
theorem generateEncodedVideoFolderPath_spec (id dir file : JStr) (user : Int)
    (dur : Option Int) (fmt : List (Nat × Option JStr)) (hf : '/' ∉ file)
    (r1 r2 : Nat)
    (h1 : r1 ∈ ([1080, 720, 480, 360, 240, 144] : List Nat))
    (h2 : r2 ∈ ([1080, 720, 480, 360, 240, 144] : List Nat))
    (hne : r1 ≠ r2) :
    (∀ r : Nat, generateEncodedVideoFolderPath ⟨id, dir ++ '/' :: file, user, dur, fmt⟩ r
        = (dir ++ '/' :: (id ++ ['/'])) ++ (natToChars r ++ js "p/"))
    ∧ generateEncodedVideoFolderPath ⟨id, dir ++ '/' :: file, user, dur, fmt⟩ r1
        ≠ generateEncodedVideoFolderPath ⟨id, dir ++ '/' :: file, user, dur, fmt⟩ r2
    ∧ (∃ rest, generateEncodedVideoFolderPath ⟨id, dir ++ '/' :: file, user, dur, fmt⟩ r1
        = (dir ++ '/' :: (id ++ ['/'])) ++ rest)
    ∧ (∃ rest, generateEncodedVideoFolderPath ⟨id, dir ++ '/' :: file, user, dur, fmt⟩ r2
        = (dir ++ '/' :: (id ++ ['/'])) ++ rest) := by
  have hall : ∀ r : Nat,
      generateEncodedVideoFolderPath ⟨id, dir ++ '/' :: file, user, dur, fmt⟩ r
        = (dir ++ '/' :: (id ++ ['/'])) ++ (natToChars r ++ js "p/") := by
    intro r
    unfold generateEncodedVideoFolderPath
    rw [show (⟨id, dir ++ '/' :: file, user, dur, fmt⟩ : VideoRec).source
      = dir ++ '/' :: file from rfl, sourceDir_eq hf]
    simp
  refine ⟨hall, ?_, ⟨_, hall r1⟩, ⟨_, hall r2⟩⟩
  rw [hall r1, hall r2]
  intro heq
  have hx := List.append_cancel_left heq
  fin_cases h1 <;> fin_cases h2 <;> first
    | exact hne rfl
    | exact absurd hx (by decide)

/-- Witness for C7 at `source = "/data/a.mp4"`, `id = "vid"`, resolutions
720 and 480. -/
theorem generateEncodedVideoFolderPath_spec_witness :
    ('/' ∉ js "a.mp4")
    ∧ ((720 : Nat) ∈ ([1080, 720, 480, 360, 240, 144] : List Nat))
    ∧ ((480 : Nat) ∈ ([1080, 720, 480, 360, 240, 144] : List Nat))
    ∧ ((720 : Nat) ≠ 480)
    ∧ generateEncodedVideoFolderPath ⟨js "vid", js "/data" ++ '/' :: js "a.mp4", 1, none, []⟩ 720
        ≠ generateEncodedVideoFolderPath ⟨js "vid", js "/data" ++ '/' :: js "a.mp4", 1, none, []⟩ 480 :=
  ⟨by decide, by decide, by decide, by decide,
    (generateEncodedVideoFolderPath_spec (js "vid") (js "/data") (js "a.mp4") 1 none []
      (by decide) 720 480 (by decide) (by decide) (by decide)).2.1⟩

/-! ## C9 — `encodeVideo` -/

/-- C9: `encodeVideo` settles in exactly one of two ways — `ok` iff the
engine signalled normal end, `error e` iff the engine signalled the error
`e` — there is no third outcome, the progress stream never influences the
result (nor the command), and the requested size is exactly
`"?x" ++ <resolution>`. -/
theorem encodeVideo_outcome (videoPath outputPath : JStr) (r : Resolution)
    (run : EngineRun) :
    ((encodeVideo videoPath outputPath r run).2 = Except.ok ()
        ↔ run.terminal = EngineTerminal.normalEnd)
    ∧ (∀ e, (encodeVideo videoPath outputPath r run).2 = Except.error e
        ↔ run.terminal = EngineTerminal.errorEnd e)
    ∧ ((encodeVideo videoPath outputPath r run).2 = Except.ok ()
        ∨ ∃ e, (encodeVideo videoPath outputPath r run).2 = Except.error e)
    ∧ (∀ run2 : EngineRun, run2.terminal = run.terminal →
        encodeVideo videoPath outputPath r run2 = encodeVideo videoPath outputPath r run)
    ∧ (encodeVideo videoPath outputPath r run).1.sizeSpec = js "?x" ++ natToChars r.toNat := by
  refine ⟨?_, ?_, ?_, ?_, rfl⟩
  · cases hterm : run.terminal <;> simp [encodeVideo, hterm]
  · intro e; cases hterm : run.terminal <;> simp [encodeVideo, hterm, eq_comm]
  · cases hterm : run.terminal <;> simp [encodeVideo, hterm]
  · intro run2 h
    unfold encodeVideo
    rw [h]

/-! ## C8 — `deleteVideo` -/

/-- C8 (amended): the three removals are attempted unconditionally; a
filesystem failure (here: the primary file already missing) is logged and
does not prevent the directory removal or the record destruction; a failure
of the record store's `destroy` is neither logged nor propagated; the
filesystem outcome never depends on the record store's outcome. -/
theorem deleteVideo_spec (w : World) (v : VideoRec) (h : v.source ∉ w.files) :
    (deleteVideo true v w).2.rmLogged = true
    ∧ v.id ∉ (deleteVideo true v w).1.records
    ∧ derivedDir v ∉ (deleteVideo true v w).1.dirs
    ∧ (∀ destroyOk : Bool, (deleteVideo destroyOk v w).2.destroyLogged = false)
    ∧ (∀ destroyOk : Bool,
        (deleteVideo destroyOk v w).1.files = (deleteVideo true v w).1.files
        ∧ (deleteVideo destroyOk v w).1.dirs = (deleteVideo true v w).1.dirs) := by
  refine ⟨?_, ?_, ?_, fun _ => rfl, fun _ => ⟨rfl, rfl⟩⟩
  · simp [deleteVideo, h]
  · simp [deleteVideo]
  · simp [deleteVideo]

/-- Witness for C8's amended theorem: a world in which the primary file is
already missing. -/
theorem deleteVideo_spec_witness :
    (js "/data/a.mp4" ∉ ([] : List JStr))
    ∧ js "vid" ∉ (deleteVideo true ⟨js "vid", js "/data/a.mp4", 1, none, []⟩
        ⟨[], [js "/data/vid"], [js "vid"]⟩).1.records :=
  ⟨by decide,
    (deleteVideo_spec ⟨[], [js "/data/vid"], [js "vid"]⟩
      ⟨js "vid", js "/data/a.mp4", 1, none, []⟩ (by decide)).2.1⟩

/-- C8 counterexample: when the record store's `destroy` fails, the record
survives but nothing is logged about it (`video.destroy().then()` discards
the rejection), refuting "a failure in any one is logged"; the two
filesystem removals still proceeded. -/
theorem deleteVideo_counterexample :
    (deleteVideo false ⟨js "vid", js "/data/a.mp4", 1, none, []⟩
        ⟨[js "/data/a.mp4"], [js "/data/vid"], [js "vid"]⟩).1.records = [js "vid"]
    ∧ (deleteVideo false ⟨js "vid", js "/data/a.mp4", 1, none, []⟩
        ⟨[js "/data/a.mp4"], [js "/data/vid"], [js "vid"]⟩).2.destroyLogged = false
    ∧ (deleteVideo false ⟨js "vid", js "/data/a.mp4", 1, none, []⟩
        ⟨[js "/data/a.mp4"], [js "/data/vid"], [js "vid"]⟩).1.files = []
    ∧ (deleteVideo false ⟨js "vid", js "/data/a.mp4", 1, none, []⟩
        ⟨[js "/data/a.mp4"], [js "/data/vid"], [js "vid"]⟩).1.dirs = [] := by decide

/-! ## C2, C3 — `updateVideoName` lemmas -/

theorem lookupFormat_setFormat_ne (fmt : List (Nat × Option JStr)) (res k : Nat)
    (p : JStr) (h : k ≠ res) :
    lookupFormat (setFormat fmt res p) k = lookupFormat fmt k := by
  induction fmt with
  | nil => rfl
  | cons e rest ih =>
    simp only [setFormat]
    by_cases he : e.1 = res
    · rw [if_pos he]
      by_cases hek : e.1 = k
      · exact absurd (hek.symm.trans he) h
      · simp only [lookupFormat, if_neg hek]
        exact ih
    · rw [if_neg he]
      simp only [lookupFormat]
      by_cases hek : e.1 = k
      · rw [if_pos hek, if_pos hek]
      · rw [if_neg hek, if_neg hek]
        exact ih

theorem lookupFormat_setFormat_self (fmt : List (Nat × Option JStr)) (res : Nat)
    (p q : JStr) (h : lookupFormat fmt res = some q) :
    lookupFormat (setFormat fmt res p) res = some p := by
  induction fmt with
  | nil => simp [lookupFormat] at h
  | cons e rest ih =>
    simp only [setFormat]
    by_cases he : e.1 = res
    · rw [if_pos he]
      simp [lookupFormat, he]
    · rw [if_neg he]
      simp only [lookupFormat, if_neg he] at h ⊢
      exact ih h

theorem lookupFormat_eq_none_of_not_mem (fmt : List (Nat × Option JStr)) (k : Nat)
    (h : k ∉ fmt.map Prod.fst) : lookupFormat fmt k = none := by
  induction fmt with
  | nil => rfl
  | cons e rest ih =>
    simp only [List.map_cons, List.mem_cons, not_or] at h
    have hne : ¬ e.1 = k := fun hh => h.1 hh.symm
    simp only [lookupFormat, if_neg hne]
    exact ih h.2

/-- The loop never changes `source` or `id`, whatever the rename oracle. -/
theorem updateVideoNameLoop_source (now : Nat) (ok : JStr → JStr → Bool) (newName : JStr) :
    ∀ (ks : List Nat) (vid : VideoRec) (moved : List (JStr × JStr)),
      (updateVideoNameLoop now ok newName ks vid moved).1.source = vid.source
      ∧ (updateVideoNameLoop now ok newName ks vid moved).1.id = vid.id := by
  intro ks
  induction ks with
  | nil => intro vid moved; exact ⟨rfl, rfl⟩
  | cons k rest ih =>
    intro vid moved
    simp only [updateVideoNameLoop]
    split
    · split
      · exact ih vid moved
      · split
        · exact ih _ _
        · exact ⟨rfl, rfl⟩
    · exact ih vid moved

/-- Keys the loop was not asked to visit keep their mapping, whatever the
rename oracle. -/
theorem updateVideoNameLoop_lookup_not_mem (now : Nat) (ok : JStr → JStr → Bool)
    (newName : JStr) :
    ∀ (ks : List Nat) (vid : VideoRec) (moved : List (JStr × JStr)) (j : Nat),
      j ∉ ks →
      lookupFormat (updateVideoNameLoop now ok newName ks vid moved).1.format j
        = lookupFormat vid.format j := by
  intro ks
  induction ks with
  | nil => intro vid moved j _; rfl
  | cons k rest ih =>
    intro vid moved j hj
    simp only [List.mem_cons, not_or] at hj
    simp only [updateVideoNameLoop]
    split
    · split
      · exact ih vid moved j hj.2
      · split
        · rw [ih _ _ j hj.2]
          exact lookupFormat_setFormat_ne _ _ _ _ hj.1
        · exact lookupFormat_setFormat_ne _ _ _ _ hj.1
    · exact ih vid moved j hj.2

/-- With an always-succeeding oracle the loop never aborts. -/
theorem updateVideoNameLoop_failed (now : Nat) (ok : JStr → JStr → Bool)
    (newName : JStr) (hok : ∀ a b, ok a b = true) :
    ∀ (ks : List Nat) (vid : VideoRec) (moved : List (JStr × JStr)),
      (updateVideoNameLoop now ok newName ks vid moved).2.2 = none := by
  intro ks
  induction ks with
  | nil => intro vid moved; rfl
  | cons k rest ih =>
    intro vid moved
    simp only [updateVideoNameLoop]
    split
    · split
      · exact ih vid moved
      · rw [if_pos (hok _ _)]
        exact ih _ _
    · exact ih vid moved

/-- The moves the loop performs for a key list, decided against a reference
format map. -/
def movesOf (now : Nat) (newName : JStr) :
    List Nat → List (Nat × Option JStr) → List (JStr × JStr)
  | [], _ => []
  | k :: rest, fmt =>
    match lookupFormat fmt k with
    | some p =>
      if p = [] then movesOf now newName rest fmt
      else (p, updateVideoPath now p newName) :: movesOf now newName rest fmt
    | none => movesOf now newName rest fmt

/-- With an always-succeeding oracle the loop appends exactly one move per
visited key holding a truthy path. -/
theorem updateVideoNameLoop_moved (now : Nat) (ok : JStr → JStr → Bool)
    (newName : JStr) (hok : ∀ a b, ok a b = true) :
    ∀ (ks : List Nat) (fmt0 : List (Nat × Option JStr)) (vid : VideoRec)
      (moved : List (JStr × JStr)),
      (∀ j ∈ ks, lookupFormat vid.format j = lookupFormat fmt0 j) → ks.Nodup →
      (updateVideoNameLoop now ok newName ks vid moved).2.1
        = moved ++ movesOf now newName ks fmt0 := by
  intro ks
  induction ks with
  | nil => intro fmt0 vid moved _ _; simp [updateVideoNameLoop, movesOf]
  | cons k rest ih =>
    intro fmt0 vid moved hagree hnd
    have hk : lookupFormat vid.format k = lookupFormat fmt0 k :=
      hagree k (List.mem_cons_self k rest)
    have hndk : k ∉ rest := (List.nodup_cons.mp hnd).1
    have hndr : rest.Nodup := (List.nodup_cons.mp hnd).2
    simp only [updateVideoNameLoop]
    split
    · rename_i p heq
      have hf0 : lookupFormat fmt0 k = some p := hk.symm.trans heq
      simp only [movesOf, hf0]
      split
      · exact ih fmt0 vid moved
          (fun j hj => hagree j (List.mem_cons_of_mem k hj)) hndr
      · rw [if_pos (hok _ _)]
        rw [ih fmt0 _ _ ?_ hndr]
        · simp
        · intro j hj
          have hjk : j ≠ k := fun hjk => hndk (hjk ▸ hj)
          rw [lookupFormat_setFormat_ne _ _ _ _ hjk]
          exact hagree j (List.mem_cons_of_mem k hj)
    · rename_i heq
      have hf0 : lookupFormat fmt0 k = none := hk.symm.trans heq
      simp only [movesOf, hf0]
      exact ih fmt0 vid moved
        (fun j hj => hagree j (List.mem_cons_of_mem k hj)) hndr

/-- With an always-succeeding oracle, what each resolution maps to after the
loop: keys in the visited list with a truthy path are repointed to their
updated path, every other key keeps its mapping. -/
theorem updateVideoNameLoop_lookup (now : Nat) (ok : JStr → JStr → Bool)
    (newName : JStr) (hok : ∀ a b, ok a b = true) :
    ∀ (ks : List Nat) (fmt0 : List (Nat × Option JStr)) (vid : VideoRec)
      (moved : List (JStr × JStr)),
      (∀ j ∈ ks, lookupFormat vid.format j = lookupFormat fmt0 j) → ks.Nodup →
      ∀ j, lookupFormat (updateVideoNameLoop now ok newName ks vid moved).1.format j
        = if j ∈ ks then
            (match lookupFormat fmt0 j with
              | some p => if p = [] then some p else some (updateVideoPath now p newName)
              | none => none)
          else lookupFormat vid.format j := by
  intro ks
  induction ks with
  | nil => intro fmt0 vid moved _ _ j; simp [updateVideoNameLoop]
  | cons k rest ih =>
    intro fmt0 vid moved hagree hnd j
    have hk : lookupFormat vid.format k = lookupFormat fmt0 k :=
      hagree k (List.mem_cons_self k rest)
    have hndk : k ∉ rest := (List.nodup_cons.mp hnd).1
    have hndr : rest.Nodup := (List.nodup_cons.mp hnd).2
    have hagtail : ∀ i ∈ rest, lookupFormat vid.format i = lookupFormat fmt0 i :=
      fun i hi => hagree i (List.mem_cons_of_mem k hi)
    simp only [updateVideoNameLoop]
    by_cases hj : j = k
    · subst hj
      rw [if_pos (List.mem_cons_self j rest)]
      split
      · rename_i p heq
        have hf0 : lookupFormat fmt0 j = some p := hk.symm.trans heq
        simp only [hf0]
        by_cases hp : p = []
        · rw [if_pos hp, if_pos hp,
            updateVideoNameLoop_lookup_not_mem now ok newName rest vid moved j hndk, heq]
        · rw [if_neg hp, if_neg hp, if_pos (hok _ _),
            updateVideoNameLoop_lookup_not_mem now ok newName rest _ _ j hndk]
          exact lookupFormat_setFormat_self _ _ _ _ heq
      · rename_i heq
        have hf0 : lookupFormat fmt0 j = none := hk.symm.trans heq
        simp only [hf0]
        rw [updateVideoNameLoop_lookup_not_mem now ok newName rest vid moved j hndk]
        exact heq
    · have hiff : (j ∈ k :: rest) ↔ (j ∈ rest) := by simp [List.mem_cons, hj]
      rw [if_congr hiff rfl rfl]
      split
      · rename_i p heq
        by_cases hp : p = []
        · rw [if_pos hp]
          exact ih fmt0 vid moved hagtail hndr j
        · have hag : ∀ i ∈ rest,
              lookupFormat (setFormat vid.format k (updateVideoPath now p newName)) i
                = lookupFormat fmt0 i := by
            intro i hi
            have hik : i ≠ k := fun hik => hndk (hik ▸ hi)
            rw [lookupFormat_setFormat_ne _ _ _ _ hik]
            exact hagtail i hi
          rw [if_neg hp, if_pos (hok _ _)]
          rw [ih fmt0
            { vid with format := setFormat vid.format k (updateVideoPath now p newName) }
            (moved ++ [(p, updateVideoPath now p newName)]) hag hndr j]
          by_cases hjr : j ∈ rest
          · rw [if_pos hjr, if_pos hjr]
          · rw [if_neg hjr, if_neg hjr]
            exact lookupFormat_setFormat_ne _ _ _ _ hj
      · exact ih fmt0 vid moved hagtail hndr j

theorem movesOf_congr (now : Nat) (newName : JStr) :
    ∀ (ks : List Nat) (f1 f2 : List (Nat × Option JStr)),
      (∀ j ∈ ks, lookupFormat f1 j = lookupFormat f2 j) →
      movesOf now newName ks f1 = movesOf now newName ks f2 := by
  intro ks
  induction ks with
  | nil => intro f1 f2 _; rfl
  | cons k rest ih =>
    intro f1 f2 h
    have hk := h k (List.mem_cons_self k rest)
    have hrec : movesOf now newName rest f1 = movesOf now newName rest f2 :=
      ih f1 f2 (fun j hj => h j (List.mem_cons_of_mem k hj))
    simp only [movesOf, hk, hrec]

/-- Running the loop over exactly the key list of a duplicate-free format map
yields one move per truthy entry, in entry order. -/
theorem movesOf_keys (now : Nat) (newName : JStr) :
    ∀ (fmt : List (Nat × Option JStr)), (fmt.map Prod.fst).Nodup →
      movesOf now newName (fmt.map Prod.fst) fmt
        = fmt.filterMap (fun e =>
            match e.2 with
            | some p => if p = [] then none else some (p, updateVideoPath now p newName)
            | none => none) := by
  intro fmt
  induction fmt with
  | nil => intro _; rfl
  | cons e rest ih =>
    intro hnd
    simp only [List.map_cons] at hnd
    have hndk : e.1 ∉ rest.map Prod.fst := (List.nodup_cons.mp hnd).1
    have hndr : (rest.map Prod.fst).Nodup := (List.nodup_cons.mp hnd).2
    have hhead : lookupFormat (e :: rest) e.1 = e.2 := by simp [lookupFormat]
    have hcong : movesOf now newName (rest.map Prod.fst) (e :: rest)
        = movesOf now newName (rest.map Prod.fst) rest := by
      apply movesOf_congr
      intro j hj
      have hne : ¬ e.1 = j := fun hh => hndk (hh ▸ hj)
      simp [lookupFormat, hne]
    simp only [List.map_cons, movesOf, hhead, hcong, ih hndr, List.filterMap_cons]
    cases he : e.2 with
    | none => simp
    | some p => by_cases hp : p = [] <;> simp [hp]

/-! ## C2 — primary move failure -/

/-- C2 (amended): if the primary move fails, `updateVideoName` aborts and
reports that failure, no derived file has been moved and nothing has been
persisted, and the *persisted* state is unchanged — but the in-memory video
object's `source` field has already been reassigned to the new path before
the rename was attempted; in every execution, a record update is persisted
only when no move failed, and then as the single final `save`. -/
theorem updateVideoName_primary_failure (now : Nat) (renameOk : JStr → JStr → Bool)
    (video : VideoRec) (newName : JStr)
    (h : renameOk video.source (updateVideoPath now video.source newName) = false) :
    (updateVideoName now renameOk video newName).failed
        = some (video.source, updateVideoPath now video.source newName)
    ∧ (updateVideoName now renameOk video newName).moved = []
    ∧ (updateVideoName now renameOk video newName).persisted = none
    ∧ (updateVideoName now renameOk video newName).video.format = video.format
    ∧ (updateVideoName now renameOk video newName).video.source
        = updateVideoPath now video.source newName
    ∧ (∀ ok2 : JStr → JStr → Bool,
        ((updateVideoName now ok2 video newName).persisted).isSome = true →
        (updateVideoName now ok2 video newName).failed = none
        ∧ (updateVideoName now ok2 video newName).persisted
            = some (updateVideoName now ok2 video newName).video) := by
  have hcond : ¬ (renameOk video.source (updateVideoPath now video.source newName) = true) := by
    simp [h]
  have hmain : updateVideoName now renameOk video newName
      = { video := { video with source := updateVideoPath now video.source newName }
          moved := []
          persisted := none
          failed := some (video.source, updateVideoPath now video.source newName) } := by
    simp only [updateVideoName, if_neg hcond]
  refine ⟨by rw [hmain], by rw [hmain], by rw [hmain], by rw [hmain], by rw [hmain], ?_⟩
  intro ok2 hsome
  by_cases hc : ok2 video.source (updateVideoPath now video.source newName) = true
  · simp only [updateVideoName, if_pos hc] at hsome ⊢
    rcases hloop : updateVideoNameLoop now ok2 newName (video.format.map Prod.fst)
        { video with source := updateVideoPath now video.source newName } []
      with ⟨vid2, mv, fl⟩
    rw [hloop] at hsome
    cases fl with
    | none => exact ⟨rfl, rfl⟩
    | some f => exact Bool.noConfusion hsome
  · simp only [updateVideoName, if_neg hc] at hsome
    simp at hsome

/-- Witness for C2's amended theorem: every rename fails. -/
theorem updateVideoName_primary_failure_witness :
    ((fun _ _ => false : JStr → JStr → Bool) (js "/d/a.mp4")
        (updateVideoPath 7 (js "/d/a.mp4") (js "b")) = false)
    ∧ (updateVideoName 7 (fun _ _ => false)
        ⟨js "v1", js "/d/a.mp4", 1, none, []⟩ (js "b")).moved = [] :=
  ⟨rfl, (updateVideoName_primary_failure 7 (fun _ _ => false)
    ⟨js "v1", js "/d/a.mp4", 1, none, []⟩ (js "b") rfl).2.1⟩

/-- C2 counterexample: when the primary move fails the call does abort and
report failure, but the video object's `source` has already been mutated, so
"the video's state (source and format) is unchanged" is false. -/
theorem updateVideoName_counterexample :
    (updateVideoName 7 (fun _ _ => false)
        ⟨js "v1", js "/d/a.mp4", 1, none, []⟩ (js "b")).failed.isSome = true
    ∧ (updateVideoName 7 (fun _ _ => false)
        ⟨js "v1", js "/d/a.mp4", 1, none, []⟩ (js "b")).video.source
      ≠ (⟨js "v1", js "/d/a.mp4", 1, none, []⟩ : VideoRec).source := by decide

/-! ## C3 — full rename with every move succeeding -/

/-- C3: when every rename succeeds, `updateVideoName` moves exactly the
primary file plus one file per resolution whose `format` entry holds a truthy
path (so `1 + count` moves, in entry order); each derived target path is
computed by `updateVideoPath` from that entry's *current* path and the new
name; the entry is repointed to exactly the moved-to path; entries absent
from the map (or holding no truthy path) are untouched; and the final record
— new `source` plus updated `format` — is persisted as the single `save`. -/
theorem updateVideoName_spec (now : Nat) (video : VideoRec) (newName : JStr)
    (hnd : (video.format.map Prod.fst).Nodup) :
    (updateVideoName now (fun _ _ => true) video newName).failed = none
    ∧ (updateVideoName now (fun _ _ => true) video newName).persisted
        = some (updateVideoName now (fun _ _ => true) video newName).video
    ∧ (updateVideoName now (fun _ _ => true) video newName).moved
        = (video.source, updateVideoPath now video.source newName)
          :: video.format.filterMap (fun e =>
              match e.2 with
              | some p => if p = [] then none else some (p, updateVideoPath now p newName)
              | none => none)
    ∧ (updateVideoName now (fun _ _ => true) video newName).moved.length
        = 1 + (video.format.filterMap (fun e =>
              match e.2 with
              | some p => if p = [] then none else some (p, updateVideoPath now p newName)
              | none => none)).length
    ∧ (updateVideoName now (fun _ _ => true) video newName).video.source
        = updateVideoPath now video.source newName
    ∧ (∀ j, lookupFormat (updateVideoName now (fun _ _ => true) video newName).video.format j
        = match lookupFormat video.format j with
          | some p => if p = [] then some p else some (updateVideoPath now p newName)
          | none => none) := by
  have hok : ∀ a b : JStr, (fun _ _ => true : JStr → JStr → Bool) a b = true :=
    fun _ _ => rfl
  have hcond : (fun _ _ => true : JStr → JStr → Bool) video.source
      (updateVideoPath now video.source newName) = true := rfl
  have hagree : ∀ j ∈ video.format.map Prod.fst,
      lookupFormat ({ video with source := updateVideoPath now video.source newName }
        : VideoRec).format j = lookupFormat video.format j :=
    fun j _ => rfl
  rcases hloop : updateVideoNameLoop now (fun _ _ => true) newName
      (video.format.map Prod.fst)
      { video with source := updateVideoPath now video.source newName } []
    with ⟨vid2, mv, fl⟩
  have hfl : fl = none := by
    have h2 := updateVideoNameLoop_failed now _ newName hok (video.format.map Prod.fst)
      { video with source := updateVideoPath now video.source newName } []
    rw [hloop] at h2
    exact h2
  subst hfl
  have hmv : mv = movesOf now newName (video.format.map Prod.fst) video.format := by
    have h2 := updateVideoNameLoop_moved now _ newName hok (video.format.map Prod.fst)
      video.format { video with source := updateVideoPath now video.source newName } []
      hagree hnd
    rw [hloop] at h2
    simpa using h2
  have hsrc : vid2.source = updateVideoPath now video.source newName := by
    have h2 := (updateVideoNameLoop_source now (fun _ _ => true) newName
      (video.format.map Prod.fst)
      { video with source := updateVideoPath now video.source newName } []).1
    rw [hloop] at h2
    exact h2
  have hlook : ∀ j, lookupFormat vid2.format j
      = match lookupFormat video.format j with
        | some p => if p = [] then some p else some (updateVideoPath now p newName)
        | none => none := by
    intro j
    have h2 := updateVideoNameLoop_lookup now _ newName hok (video.format.map Prod.fst)
      video.format { video with source := updateVideoPath now video.source newName } []
      hagree hnd j
    rw [hloop] at h2
    by_cases hj : j ∈ video.format.map Prod.fst
    · rw [h2, if_pos hj]
    · rw [h2, if_neg hj]
      have hn := lookupFormat_eq_none_of_not_mem video.format j hj
      rw [hn]
  have hmain : updateVideoName now (fun _ _ => true) video newName
      = { video := vid2
          moved := (video.source, updateVideoPath now video.source newName) :: mv
          persisted := some vid2
          failed := none } := by
    simp only [updateVideoName]
    rw [if_pos trivial, hloop]
  refine ⟨by rw [hmain], by rw [hmain], ?_, ?_, ?_, ?_⟩
  · rw [hmain]
    simp only [hmv, movesOf_keys now newName video.format hnd]
  · rw [hmain]
    simp only [hmv, movesOf_keys now newName video.format hnd, List.length_cons]
    omega
  · rw [hmain]
    exact hsrc
  · intro j
    rw [hmain]
    exact hlook j

/-- Witness for C3 at the spec's example: derived files at resolutions
720 and 480 — exactly three files are moved. -/
theorem updateVideoName_spec_witness :
    ((([(720, some (js "/data/vid/720p/1_a.mp4")),
        (480, some (js "/data/vid/480p/1_a.mp4"))] :
          List (Nat × Option JStr)).map Prod.fst).Nodup)
    ∧ (updateVideoName 9 (fun _ _ => true)
        ⟨js "vid", js "/data/a.mp4", 1, none,
          [(720, some (js "/data/vid/720p/1_a.mp4")),
           (480, some (js "/data/vid/480p/1_a.mp4"))]⟩ (js "new")).moved.length = 3 := by
  refine ⟨by decide, ?_⟩
  rw [(updateVideoName_spec 9
    ⟨js "vid", js "/data/a.mp4", 1, none,
      [(720, some (js "/data/vid/720p/1_a.mp4")),
       (480, some (js "/data/vid/480p/1_a.mp4"))]⟩ (js "new") (by decide)).2.2.2.1]
  decide

end VideoServices
